import Mathlib

/-!
Verification of the tabular Q-learning agent (`src/q_agent.py`).

The embedding models Python floats as exact rationals (ℚ), the nested
dict-of-dicts Q-table as an association list of association lists with
Python dict semantics (lookup finds the first matching key, assignment
updates in place or appends a new entry at the end), and the calls to
`np.random` as explicit oracle arguments: `choose_action` receives the
uniform sample in [0,1) and an index for the uniform draw from a list,
and `get_best_action` receives an index for the tie-breaking draw.
Mutation of `self` becomes explicit state passing: each operation that
mutates the agent returns the new agent (or the new table).
-/

namespace QLearn

variable {σ α : Type}

/-- An association list with Python dict semantics for our purposes:
lookup returns the value at the first matching key. -/
def alistGet [DecidableEq σ] : List (σ × α) → σ → Option α
  | [], _ => none
  | (k, v) :: rest, key => if k = key then some v else alistGet rest key

/-- Python dict assignment `d[key] = v`: update in place if the key is
present, append a fresh entry at the end otherwise. -/
def alistSet [DecidableEq σ] : List (σ × α) → σ → α → List (σ × α)
  | [], key, v => [(key, v)]
  | (k, w) :: rest, key, v =>
    if k = key then (k, v) :: rest else (k, w) :: alistSet rest key v

/-- The Q-table: `Dict[Tuple, Dict[Any, float]]` from `q_agent.py`. -/
def Table (σ α : Type) : Type := List (σ × List (α × ℚ))

/-- The agent state: the five scalar parameters and the Q-table
(`QAgent.__init__`, lines 86-91 of `q_agent.py`). -/
structure QAgent (σ α : Type) where
  learning_rate : ℚ
  discount_factor : ℚ
  epsilon : ℚ
  epsilon_decay : ℚ
  epsilon_min : ℚ
  q_table : Table σ α

/-- `QAgent.__init__` (lines 41-91): parameter validation in source
order; `raise ValueError` becomes `Except.error`. -/
def mkQAgent (learning_rate discount_factor epsilon epsilon_decay epsilon_min : ℚ) :
    Except String (QAgent σ α) :=
  if ¬ (0 < learning_rate ∧ learning_rate ≤ 1) then
    Except.error "learning_rate must be in (0, 1]"
  else if ¬ (0 ≤ discount_factor ∧ discount_factor ≤ 1) then
    Except.error "discount_factor must be in [0, 1]"
  else if ¬ (0 ≤ epsilon ∧ epsilon ≤ 1) then
    Except.error "epsilon must be in [0, 1]"
  else if ¬ (0 ≤ epsilon_min ∧ epsilon_min ≤ 1) then
    Except.error "epsilon_min must be in [0, 1]"
  else if epsilon_decay ≤ 0 then
    Except.error "epsilon_decay must be positive"
  else if epsilon < epsilon_min then
    Except.error "epsilon must be >= epsilon_min"
  else
    Except.ok
      { learning_rate := learning_rate
        discount_factor := discount_factor
        epsilon := epsilon
        epsilon_decay := epsilon_decay
        epsilon_min := epsilon_min
        q_table := [] }

/-- Lookup of a stored Q-value without materialization (used only to
state properties; the code itself always materializes). -/
def qLookup [DecidableEq σ] [DecidableEq α] (t : Table σ α) (s : σ) (a : α) : Option ℚ :=
  (alistGet t s).bind fun inner => alistGet inner a

/-- `QAgent.get_q_value` (lines 93-108): inserts `{}` for an absent
state, inserts `0.0` for an absent action, returns the stored value.
Returns the value together with the table after materialization. -/
def get_q_value [DecidableEq σ] [DecidableEq α] (t : Table σ α) (s : σ) (a : α) :
    ℚ × Table σ α :=
  match alistGet t s with
  | none => (0, alistSet t s [(a, 0)])
  | some inner =>
    match alistGet inner a with
    | none => (0, alistSet t s (alistSet inner a 0))
    | some v => (v, t)

/-- The list comprehension `[self.get_q_value(state, action) for action
in possible_actions]`: evaluates `get_q_value` in order, threading the
materializing table. -/
def get_q_values [DecidableEq σ] [DecidableEq α] :
    Table σ α → σ → List α → List ℚ × Table σ α
  | t, _, [] => ([], t)
  | t, s, a :: rest =>
    let r := get_q_value t s a
    let rec' := get_q_values r.2 s rest
    (r.1 :: rec'.1, rec'.2)

/-- Python `max` on a non-empty list (left fold with `max`); the empty
case is never reached by the code. -/
def maxList : List ℚ → ℚ
  | [] => 0
  | v :: vs => vs.foldl max v

/-- `QAgent.get_max_q_value` (lines 110-123): `0.0` on an empty action
list (table untouched), otherwise the max of the materializing
comprehension. -/
def get_max_q_value [DecidableEq σ] [DecidableEq α] (t : Table σ α) (s : σ)
    (possible_actions : List α) : ℚ × Table σ α :=
  match possible_actions with
  | [] => (0, t)
  | _ :: _ =>
    let r := get_q_values t s possible_actions
    (maxList r.1, r.2)

/-- The dict comprehension `{action: self.get_q_value(state, action) for
action in possible_actions}` from `get_best_action`: each iteration
calls the materializing accessor and assigns into the dict. -/
def qdict [DecidableEq σ] [DecidableEq α] :
    Table σ α → σ → List α → List (α × ℚ) → List (α × ℚ) × Table σ α
  | t, _, [], acc => (acc, t)
  | t, s, a :: rest, acc =>
    let r := get_q_value t s a
    qdict r.2 s rest (alistSet acc a r.1)

/-- `np.random.choice(l)` modeled by an oracle index: the draw at oracle
value `i` is element `i % l.length`. -/
def pick (l : List α) (i : ℕ) : Option α :=
  l[(i % l.length)]?

/-- `QAgent.get_best_action` (lines 125-143): `None` on an empty action
list; otherwise build the value dict, find the max, collect the tied
actions, and draw one uniformly (oracle index `j`). Returns the chosen
action and the table after materialization. -/
def get_best_action [DecidableEq σ] [DecidableEq α] (ag : QAgent σ α) (s : σ)
    (possible_actions : List α) (j : ℕ) : Option α × Table σ α :=
  match possible_actions with
  | [] => (none, ag.q_table)
  | _ :: _ =>
    let r := qdict ag.q_table s possible_actions []
    let max_q := maxList (r.1.map Prod.snd)
    let best_actions := (r.1.filter fun p => decide (p.2 = max_q)).map Prod.fst
    (pick best_actions j, r.2)

/-- `QAgent.choose_action` (lines 145-167): `None` on an empty action
list; explore (uniform draw, oracle index `i`) when the uniform sample
`u` is strictly below epsilon; otherwise exploit via `get_best_action`
(tie oracle index `j`). -/
def choose_action [DecidableEq σ] [DecidableEq α] (ag : QAgent σ α) (u : ℚ) (i j : ℕ)
    (s : σ) (possible_actions : List α) : Option α × Table σ α :=
  match possible_actions with
  | [] => (none, ag.q_table)
  | _ :: _ =>
    if u < ag.epsilon then (pick possible_actions i, ag.q_table)
    else get_best_action ag s possible_actions j

/-- The store step of `QAgent.update` (lines 204-207): create the state
sub-dict if absent, then assign `q_table[state][action] = v`. -/
def storeQ [DecidableEq σ] [DecidableEq α] (t : Table σ α) (s : σ) (a : α) (v : ℚ) :
    Table σ α :=
  let t1 := match alistGet t s with
    | none => alistSet t s []
    | some _ => t
  alistSet t1 s (alistSet ((alistGet t1 s).getD []) a v)

/-- `QAgent.update` (lines 169-207): read the current value
(materializing), compute the target (`reward` when done, Bellman target
otherwise, materializing the next-state entries), move the estimate by
`learning_rate` toward the target, store it. -/
def update [DecidableEq σ] [DecidableEq α] (ag : QAgent σ α) (s : σ) (a : α) (reward : ℚ)
    (next_state : σ) (possible_next_actions : List α) (done : Bool) : QAgent σ α :=
  let r0 := get_q_value ag.q_table s a
  let current_q := r0.1
  let target_q :=
    match done with
    | true => reward
    | false =>
      reward + ag.discount_factor * (get_max_q_value r0.2 next_state possible_next_actions).1
  let t2 :=
    match done with
    | true => r0.2
    | false => (get_max_q_value r0.2 next_state possible_next_actions).2
  let new_q := current_q + ag.learning_rate * (target_q - current_q)
  { ag with q_table := storeQ t2 s a new_q }

/-- `QAgent.decay_epsilon` (lines 209-216). -/
def decay_epsilon (ag : QAgent σ α) : QAgent σ α :=
  { ag with epsilon := max ag.epsilon_min (ag.epsilon * ag.epsilon_decay) }

/-- `n` successive calls to `decay_epsilon`. -/
def decayIter (n : ℕ) (ag : QAgent σ α) : QAgent σ α :=
  match n with
  | 0 => ag
  | n + 1 => decayIter n (decay_epsilon ag)

/-- The pickled blob written by `QAgent.save` and read by `QAgent.load`:
a dict with six keys. A field is `none` when the key is absent from the
blob (Python then raises `KeyError` at the access). -/
structure AgentData (σ α : Type) where
  q_table : Option (Table σ α)
  learning_rate : Option ℚ
  discount_factor : Option ℚ
  epsilon : Option ℚ
  epsilon_decay : Option ℚ
  epsilon_min : Option ℚ

/-- `QAgent.save` (lines 218-234): serialize the six fields. Pickle
round-trips Python floats and dicts exactly, so the blob holds the
values themselves. -/
def save (ag : QAgent σ α) : AgentData σ α :=
  { q_table := some ag.q_table
    learning_rate := some ag.learning_rate
    discount_factor := some ag.discount_factor
    epsilon := some ag.epsilon
    epsilon_decay := some ag.epsilon_decay
    epsilon_min := some ag.epsilon_min }

/-- `QAgent.load` (lines 236-261): assign the six fields from the blob
in source order. A missing key raises `KeyError` at its access, AFTER
the earlier assignments have already mutated the agent; the result pairs
the agent as left by the call with the raised error, if any. -/
def load (ag : QAgent σ α) (d : AgentData σ α) : QAgent σ α × Option String :=
  match d.q_table with
  | none => (ag, some "KeyError: q_table")
  | some t =>
    let ag := { ag with q_table := t }
    match d.learning_rate with
    | none => (ag, some "KeyError: learning_rate")
    | some lr =>
      let ag := { ag with learning_rate := lr }
      match d.discount_factor with
      | none => (ag, some "KeyError: discount_factor")
      | some df =>
        let ag := { ag with discount_factor := df }
        match d.epsilon with
        | none => (ag, some "KeyError: epsilon")
        | some e =>
          let ag := { ag with epsilon := e }
          match d.epsilon_decay with
          | none => (ag, some "KeyError: epsilon_decay")
          | some ed =>
            let ag := { ag with epsilon_decay := ed }
            match d.epsilon_min with
            | none => (ag, some "KeyError: epsilon_min")
            | some em => ({ ag with epsilon_min := em }, none)

/-- Total number of stored (state, action) leaves in the table, the
`total_state_action_pairs` of `get_stats` (line 271). -/
def leafCount (t : Table σ α) : ℕ :=
  (t.map fun p => p.2.length).sum

/-- A fresh agent with the default parameters of `QAgent.__init__`
except epsilon left at 1.0: learning_rate 0.1, discount_factor 0.95,
epsilon 1.0, epsilon_decay 0.995, epsilon_min 0.01, empty table. -/
def ag9 : QAgent ℕ ℕ := ⟨1/10, 19/20, 1, 199/200, 1/100, []⟩

/-- The same parameters as `ag9` with a prepared table: the next state 1
has one action 5 with stored value 2.0, and the pair (0, 0) about to be
updated is absent (current value 0.0). -/
def ag9' : QAgent ℕ ℕ := ⟨1/10, 19/20, 1, 199/200, 1/100, [(1, [(5, 2)])]⟩

/-- An agent with valid construction parameters and epsilon_decay = 2
(the constructor only requires epsilon_decay > 0). -/
def ag8 : QAgent ℕ ℕ := ⟨1/10, 19/20, 1, 2, 1/100, []⟩

/-- A pickled blob that contains a `q_table` entry but is missing the
remaining five keys. -/
def blob3 : AgentData ℕ ℕ :=
  ⟨some [(0, [(0, 5)])], none, none, none, none, none⟩

theorem alistGet_alistSet_self {σ α : Type} [DecidableEq σ] (l : List (σ × α)) (k : σ)
    (v : α) :
    alistGet (alistSet l k v) k = some v := by
  induction l with
  | nil => simp [alistSet, alistGet]
  | cons p rest ih =>
    obtain ⟨k', w⟩ := p
    by_cases h : k' = k
    · simp [alistSet, alistGet, h]
    · simp [alistSet, alistGet, h, ih]

theorem qLookup_storeQ_self [DecidableEq σ] [DecidableEq α] (t : Table σ α) (s : σ)
    (a : α) (v : ℚ) :
    qLookup (storeQ t s a v) s a = some v := by
  unfold storeQ qLookup
  cases h : alistGet t s <;>
    simp [h, alistGet_alistSet_self]

/-- C1: `update` writes into the table at (state, action) the value
current + learning_rate * (target - current), where current is the
(materializing) read of (state, action), target is reward when done and
reward + discount_factor * get_max_q_value(next_state, legal next
actions) otherwise; and two done=true updates differing only in
next_state / legal next actions produce identical resulting agents. -/
theorem update_bellman_formula [DecidableEq σ] [DecidableEq α] (ag : QAgent σ α) (s : σ)
    (a : α) (reward : ℚ) (ns ns1 ns2 : σ) (nas nas1 nas2 : List α) (done : Bool) :
    (qLookup (update ag s a reward ns nas done).q_table s a =
      some ((get_q_value ag.q_table s a).1 + ag.learning_rate *
        ((if done then reward
          else reward + ag.discount_factor *
            (get_max_q_value (get_q_value ag.q_table s a).2 ns nas).1) -
          (get_q_value ag.q_table s a).1))) ∧
    update ag s a reward ns1 nas1 true = update ag s a reward ns2 nas2 true := by
  constructor
  · cases done <;> simp [update, qLookup_storeQ_self]
  · rfl

/-- C10: a non-terminal `update` with an empty list of next legal
actions produces exactly the same agent as the terminal update with the
same arguments, and `get_max_q_value` returns 0.0 on an empty list
without touching the table. -/
theorem update_empty_next_eq_done [DecidableEq σ] [DecidableEq α] (ag : QAgent σ α)
    (s : σ) (a : α) (reward : ℚ) (ns : σ) :
    update ag s a reward ns ([] : List α) false = update ag s a reward ns [] true ∧
    ∀ (t : Table σ α) (s' : σ), get_max_q_value t s' ([] : List α) = (0, t) := by
  refine ⟨?_, fun t s' => rfl⟩
  simp [update, get_max_q_value]

/-- C2: `save` followed by `load` into a fresh agent reproduces exactly
the saved agent: the Q-table and all five parameters are equal, with no
error. -/
theorem save_load_roundtrip [DecidableEq σ] [DecidableEq α] (ag fresh : QAgent σ α) :
    load fresh (save ag) = (ag, none) := by
  cases ag
  rfl

/-- C3 counterexample: loading a blob that has a `q_table` entry but is
missing the other keys fails (KeyError), yet the agent's Q-table has
already been replaced — the failed load is NOT atomic and does NOT
leave the agent unchanged. -/
theorem load_not_atomic_cex :
    (load ag9 blob3).2.isSome = true ∧ (load ag9 blob3).1.q_table ≠ ag9.q_table := by
  refine ⟨rfl, ?_⟩
  simp [load, ag9, blob3]

/-- C3 amended: `load` assigns the fields in source order (q_table,
learning_rate, discount_factor, epsilon, epsilon_decay, epsilon_min).
When every key is present, all six fields are replaced from the blob and
no error is raised; when `q_table` is present but `learning_rate` is
missing, load fails with a KeyError AFTER the Q-table has already been
replaced, so the assignments are not atomic. -/
theorem load_sequential [DecidableEq σ] [DecidableEq α] (ag : QAgent σ α)
    (d : AgentData σ α) :
    (∀ (t : Table σ α) (lr df e ed em : ℚ),
      d = ⟨some t, some lr, some df, some e, some ed, some em⟩ →
      load ag d = (⟨lr, df, e, ed, em, t⟩, none)) ∧
    (∀ t : Table σ α, d.q_table = some t → d.learning_rate = none →
      load ag d = ({ ag with q_table := t }, some "KeyError: learning_rate")) := by
  constructor
  · rintro t lr df e ed em rfl
    rfl
  · intro t ht hlr
    obtain ⟨qt, l, f, e, ed, em⟩ := d
    simp only [AgentData.q_table] at ht
    simp only [AgentData.learning_rate] at hlr
    subst ht hlr
    rfl

/-- C3 witness: the amended behavior at a concrete blob with a missing
learning_rate key. -/
theorem load_sequential_witness :
    load ag9 blob3 =
      ({ ag9 with q_table := [(0, [(0, 5)])] }, some "KeyError: learning_rate") :=
  (load_sequential ag9 blob3).2 [(0, [(0, 5)])] rfl rfl

/-- C5: construction succeeds (with all five parameters stored and an
empty table) exactly when every parameter is inside its documented
domain, and fails with an error otherwise — in particular
learning_rate = 0 fails. The `Except` result makes a failed
construction atomic: no agent value exists in the error case. -/
theorem mk_validation (lr df e ed em : ℚ) :
    ((∃ ag : QAgent ℕ ℕ, mkQAgent lr df e ed em = Except.ok ag ∧
        ag.learning_rate = lr ∧ ag.discount_factor = df ∧ ag.epsilon = e ∧
        ag.epsilon_decay = ed ∧ ag.epsilon_min = em ∧ ag.q_table = []) ↔
      (0 < lr ∧ lr ≤ 1 ∧ 0 ≤ df ∧ df ≤ 1 ∧ 0 ≤ e ∧ e ≤ 1 ∧
        0 ≤ em ∧ em ≤ 1 ∧ 0 < ed ∧ em ≤ e)) ∧
    (∃ msg, mkQAgent (σ := ℕ) (α := ℕ) 0 df e ed em = Except.error msg) := by
  constructor
  · unfold mkQAgent
    split_ifs with h1 h2 h3 h4 h5 h6 <;>
      push_neg at * <;>
      simp_all
  · refine ⟨"learning_rate must be in (0, 1]", ?_⟩
    simp [mkQAgent]

/-- C5 witness: learning_rate = 1 succeeds (boundary included), with
the other parameters at the source defaults. -/
theorem mk_validation_witness :
    ∃ ag : QAgent ℕ ℕ, mkQAgent 1 (19/20) 1 (199/200) (1/100) = Except.ok ag ∧
      ag.learning_rate = 1 ∧ ag.discount_factor = 19/20 ∧ ag.epsilon = 1 ∧
      ag.epsilon_decay = 199/200 ∧ ag.epsilon_min = 1/100 ∧ ag.q_table = [] :=
  (mk_validation 1 (19/20) 1 (199/200) (1/100)).1.mpr (by norm_num)

/-- C8: the constructor accepts epsilon_decay = 2 (only positivity is
checked) with epsilon = 1 at its documented upper bound, and repeated
`decay_epsilon` calls drive epsilon to 2 and then 8, strictly above
1.0 — the construction-time bound epsilon ≤ 1 is not preserved by
decay, which enforces only the epsilon_min floor. -/
theorem decay_no_ceiling :
    mkQAgent (σ := ℕ) (α := ℕ) (1/10) (19/20) 1 2 (1/100) = Except.ok ag8 ∧
    ag8.epsilon ≤ 1 ∧
    (decay_epsilon ag8).epsilon = 2 ∧
    (decayIter 3 ag8).epsilon = 8 ∧
    1 < (decayIter 3 ag8).epsilon := by
  refine ⟨?_, by norm_num [ag8], ?_, ?_, ?_⟩ <;>
    norm_num [mkQAgent, ag8, decayIter, decay_epsilon, max_def]

/-- C9: with learning_rate = 0.1 and discount_factor = 0.95, a terminal
update with reward 10.0 on a fresh pair yields Q = 1.0 exactly, and a
non-terminal update with reward -1.0, current value 0.0 and maximal
next-state value 2.0 yields Q = 0.09 exactly (exact rational
arithmetic). -/
theorem end_to_end_scenarios :
    qLookup (update ag9 0 0 10 1 [0] true).q_table 0 0 = some 1 ∧
    qLookup (update ag9' 0 0 (-1) 1 [5] false).q_table 0 0 = some (9/100) := by
  refine ⟨?_, ?_⟩ <;>
    norm_num [update, get_q_value, get_max_q_value, get_q_values, maxList, qLookup,
      storeQ, alistGet, alistSet, ag9, ag9']

theorem alistSet_length_of_none {κ : Type} {β : Type} [DecidableEq κ]
    (l : List (κ × β)) (k : κ) (v : β) (h : alistGet l k = none) :
    (alistSet l k v).length = l.length + 1 := by
  induction l with
  | nil => rfl
  | cons p rest ih =>
    obtain ⟨k', w⟩ := p
    by_cases hk : k' = k
    · simp [alistGet, hk] at h
    · simp only [alistGet, if_neg hk] at h
      simp [alistSet, hk, ih h]

theorem leafCount_alistSet_of_none [DecidableEq σ] (t : Table σ α) (s : σ)
    (l : List (α × ℚ)) (h : alistGet t s = none) :
    leafCount (alistSet t s l) = leafCount t + l.length := by
  induction t with
  | nil => simp [alistSet, leafCount]
  | cons p rest ih =>
    obtain ⟨k, w⟩ := p
    by_cases hk : k = s
    · simp [alistGet, hk] at h
    · simp only [alistGet, if_neg hk] at h
      simp only [alistSet, if_neg hk, leafCount, List.map_cons, List.sum_cons]
      have := ih h
      simp only [leafCount] at this
      omega

theorem leafCount_alistSet_of_some [DecidableEq σ] (t : Table σ α) (s : σ)
    (inner l : List (α × ℚ)) (h : alistGet t s = some inner) :
    leafCount (alistSet t s l) + inner.length = leafCount t + l.length := by
  induction t with
  | nil => simp [alistGet] at h
  | cons p rest ih =>
    obtain ⟨k, w⟩ := p
    by_cases hk : k = s
    · simp only [alistGet, if_pos hk] at h
      cases h
      simp [alistSet, hk, leafCount]
      omega
    · simp only [alistGet, if_neg hk] at h
      simp only [alistSet, if_neg hk, leafCount, List.map_cons, List.sum_cons]
      have := ih h
      simp only [leafCount] at this
      omega

theorem get_q_value_of_some [DecidableEq σ] [DecidableEq α] (t : Table σ α) (s : σ)
    (a : α) (v : ℚ) (h : qLookup t s a = some v) :
    get_q_value t s a = (v, t) := by
  unfold qLookup at h
  unfold get_q_value
  cases hs : alistGet t s with
  | none => simp [hs] at h
  | some inner =>
    rw [hs] at h
    simp only [Option.some_bind] at h
    cases ha : alistGet inner a with
    | none => simp [ha] at h
    | some w =>
      rw [ha] at h
      cases h
      simp [hs, ha]

theorem get_q_value_of_none [DecidableEq σ] [DecidableEq α] (t : Table σ α) (s : σ)
    (a : α) (h : qLookup t s a = none) :
    (get_q_value t s a).1 = 0 ∧
    leafCount (get_q_value t s a).2 = leafCount t + 1 ∧
    qLookup (get_q_value t s a).2 s a = some 0 := by
  unfold qLookup at h
  unfold get_q_value
  cases hs : alistGet t s with
  | none =>
    simp only [hs]
    refine ⟨by simp, ?_, ?_⟩
    · rw [leafCount_alistSet_of_none t s _ hs]
      rfl
    · unfold qLookup
      simp [alistGet_alistSet_self, alistGet]
  | some inner =>
    have ha : alistGet inner a = none := by
      rw [hs] at h
      simpa using h
    simp only [hs, ha]
    refine ⟨by simp, ?_, ?_⟩
    · have h1 := leafCount_alistSet_of_some t s inner (alistSet inner a 0) hs
      have h2 := alistSet_length_of_none inner a (0:ℚ) ha
      omega
    · unfold qLookup
      simp [alistGet_alistSet_self]

/-- C6: `get_q_value` returns the stored estimate when the pair is
present (table unchanged) and 0.0 when absent; an absent pair is
materialized (the leaf count grows by exactly one and the pair then
holds 0.0), and a repeated call returns the same value and leaves the
table unchanged. -/
theorem get_q_value_spec [DecidableEq σ] [DecidableEq α] (t : Table σ α) (s : σ) (a : α) :
    (qLookup t s a = none →
      (get_q_value t s a).1 = 0 ∧
      leafCount (get_q_value t s a).2 = leafCount t + 1 ∧
      qLookup (get_q_value t s a).2 s a = some 0) ∧
    (∀ v, qLookup t s a = some v → get_q_value t s a = (v, t)) ∧
    get_q_value (get_q_value t s a).2 s a = ((get_q_value t s a).1, (get_q_value t s a).2) := by
  refine ⟨get_q_value_of_none t s a, fun v h => get_q_value_of_some t s a v h, ?_⟩
  cases h : qLookup t s a with
  | none =>
    obtain ⟨h1, _, h3⟩ := get_q_value_of_none t s a h
    rw [get_q_value_of_some _ s a 0 h3, h1]
  | some v =>
    rw [get_q_value_of_some t s a v h]
    exact get_q_value_of_some t s a v h

/-- C6 witness: the never-inserted pair (0, 0) on the empty table. -/
theorem get_q_value_spec_witness :
    qLookup ([] : Table ℕ ℕ) 0 0 = none ∧
    (get_q_value ([] : Table ℕ ℕ) 0 0).1 = 0 ∧
    leafCount (get_q_value ([] : Table ℕ ℕ) 0 0).2 = leafCount ([] : Table ℕ ℕ) + 1 := by
  have h := (get_q_value_spec ([] : Table ℕ ℕ) 0 0).1 rfl
  exact ⟨rfl, h.1, h.2.1⟩

/-- C7: `choose_action` returns the `none` sentinel on an empty
legal-action list; with epsilon = 0 (and the sample nonnegative) it
always returns the result of `get_best_action`; with epsilon = 1 (and
the sample in [0,1)) it always explores, returning the uniform draw
from the legal actions, which is an actual action when the list is
non-empty. -/
theorem choose_action_spec [DecidableEq σ] [DecidableEq α] (ag : QAgent σ α) (s : σ)
    (as : List α) (u : ℚ) (i j : ℕ) :
    choose_action ag u i j s [] = (none, ag.q_table) ∧
    (ag.epsilon = 0 → 0 ≤ u →
      choose_action ag u i j s as = get_best_action ag s as j) ∧
    (ag.epsilon = 1 → 0 ≤ u → u < 1 → as ≠ [] →
      choose_action ag u i j s as = (pick as i, ag.q_table) ∧
      (pick as i).isSome = true) := by
  refine ⟨rfl, ?_, ?_⟩
  · intro h0 hu
    cases as with
    | nil => rfl
    | cons b bs =>
      simp only [choose_action]
      rw [h0, if_neg (not_lt.mpr hu)]
  · intro h1 _ hu1 hne
    cases as with
    | nil => exact absurd rfl hne
    | cons b bs =>
      constructor
      · simp only [choose_action]
        rw [h1, if_pos hu1]
      · have hlen : i % (b :: bs).length < (b :: bs).length :=
          Nat.mod_lt _ (by simp)
        rw [pick, List.getElem?_eq_getElem hlen]
        rfl

/-- C7 witness: epsilon = 1 with sample 1/2 and oracle index 3 on the
two actions 10 and 20 explores and picks index 3 mod 2 = 1. -/
theorem choose_action_spec_witness :
    ag9.epsilon = 1 ∧ (0:ℚ) ≤ 1/2 ∧ ((1:ℚ)/2) < 1 ∧ ([10, 20] : List ℕ) ≠ [] ∧
    choose_action ag9 (1/2) 3 0 0 [10, 20] = (pick [10, 20] 3, ag9.q_table) ∧
    (pick ([10, 20] : List ℕ) 3).isSome = true := by
  have h := (choose_action_spec ag9 0 [10, 20] (1/2) 3 0).2.2 rfl (by norm_num)
    (by norm_num) (by simp)
  exact ⟨rfl, by norm_num, by norm_num, by simp, h.1, h.2⟩

end QLearn
